import Mathlib

/-!
Shallow embedding of `src/accelerators/kdtreeaccel.rs` (kd-tree acceleration
structure construction) together with the external collaborator types it
consumes.  The Rust `Float` type (`f32`) is embedded as `ℚ` so that all
arithmetic is exact and decidable; panics (failed `assert!`s, out-of-bounds
slice accesses, `usize` underflow) are embedded as `Option.none`.
-/

-- Batteries marks the `Rat` field operations `@[irreducible]`; the concrete
-- evaluations below are proved by `decide`, which needs them to reduce.
set_option allowUnsafeReducibility true
attribute [local semireducible] Rat.add Rat.mul Rat.sub Rat.inv
set_option maxRecDepth 100000

namespace RsPbrt

/-- The renderer's scalar type, embedded exactly. -/
abbrev Float := ℚ

/-- Largest finite `f32` value, `(2^24 - 1) * 2^104`, used by the empty
default bounding box. -/
def maxFloat : Float := ((2 : ℚ) ^ 24 - 1) * (2 : ℚ) ^ 104

structure Vector3f where
  x : Float
  y : Float
  z : Float
deriving DecidableEq

instance : Sub Vector3f :=
  ⟨fun a b => ⟨a.x - b.x, a.y - b.y, a.z - b.z⟩⟩

/-- Component access `v[axis]` for `axis ∈ {0, 1, 2}`. -/
def Vector3f.nth (v : Vector3f) (i : Fin 3) : Float :=
  if i.val = 0 then v.x else if i.val = 1 then v.y else v.z

/-- Modelled from the spec: "BoundingBox: axis-aligned min/max corner in 3D;
external collaborator type" (`Bounds3f` lives in `core/geometry.rs`, which is
not part of the given source fragment). -/
structure Bounds3f where
  p_min : Vector3f
  p_max : Vector3f
deriving DecidableEq

/-- Modelled from the spec: the scene bound must be "the union of all
primitive bounds", so the default box is the empty box (min = +Float MAX,
max = -Float MAX), the identity of the union. `Bounds3f::default()` is in
`core/geometry.rs`, outside the fragment. -/
def Bounds3f.default : Bounds3f :=
  ⟨⟨maxFloat, maxFloat, maxFloat⟩, ⟨-maxFloat, -maxFloat, -maxFloat⟩⟩

/-- Modelled from the spec: union of two axis-aligned boxes (componentwise
min of the min corners and max of the max corners). `bnd3_union_bnd3` is in
`core/geometry.rs`, outside the fragment. -/
def bnd3_union_bnd3 (a b : Bounds3f) : Bounds3f :=
  ⟨⟨min a.p_min.x b.p_min.x, min a.p_min.y b.p_min.y, min a.p_min.z b.p_min.z⟩,
   ⟨max a.p_max.x b.p_max.x, max a.p_max.y b.p_max.y, max a.p_max.z b.p_max.z⟩⟩

/-- Modelled from the spec: "standard box surface-area decomposition";
`surface_area` is in `core/geometry.rs`, outside the fragment. -/
def Bounds3f.surface_area (b : Bounds3f) : Float :=
  let d := b.p_max - b.p_min
  2 * (d.x * d.y + d.x * d.z + d.y * d.z)

/-- Modelled from the spec: "the axis of maximum extent of nodeBounds"
(ties resolved toward later axes, as in pbrt); `maximum_extent` is in
`core/geometry.rs`, outside the fragment. -/
def Bounds3f.maximum_extent (b : Bounds3f) : Fin 3 :=
  let d := b.p_max - b.p_min
  if d.x > d.y ∧ d.x > d.z then 0 else if d.y > d.z then 1 else 2

/-- Fuel-indexed integer base-2 logarithm (the fuel makes it structurally
recursive). -/
def log2Aux : ℕ → ℕ → ℕ
  | 0, _ => 0
  | fuel + 1, n => if n ≥ 2 then log2Aux fuel (n / 2) + 1 else 0

/-- Modelled from the spec: the automatic max-depth formula uses
`log2(primitiveCount)`; `log_2_int_i32` lives in `core/pbrt.rs`, outside the
fragment.  Embedded as the integer (floor) base-2 logarithm. -/
def log_2_int_i32 (n : ℕ) : ℤ := log2Aux n n

theorem log2Aux_eq_log2 : ∀ (fuel n : ℕ), n ≤ fuel → log2Aux fuel n = Nat.log2 n := by
  intro fuel
  induction fuel with
  | zero =>
    intro n hn
    have hn0 : n = 0 := by omega
    subst hn0
    simp [log2Aux, Nat.log2]
  | succ fuel ih =>
    intro n hn
    rw [log2Aux, Nat.log2]
    by_cases h2 : n ≥ 2
    · have hlt : n / 2 < n := Nat.div_lt_self (by omega) (by omega)
      rw [if_pos h2, if_pos h2, ih (n / 2) (by omega)]
    · rw [if_neg h2, if_neg h2]

/-- `pub enum EdgeType { Start = 0, End = 1 }` -/
inductive EdgeType where
  | Start : EdgeType
  | End : EdgeType
deriving DecidableEq

/-- The discriminant values of the `EdgeType` enum (`Start = 0`, `End = 1`),
which drive its derived `PartialOrd`. -/
def EdgeType.toNat : EdgeType → ℕ
  | EdgeType.Start => 0
  | EdgeType.End => 1

/-- `pub struct BoundEdge { t, prim_num, edge_type }` -/
structure BoundEdge where
  t : Float
  prim_num : ℕ
  edge_type : EdgeType
deriving DecidableEq

/-- `BoundEdge::new` -/
def BoundEdge.new (t : Float) (prim_num : ℕ) (starting : Bool) : BoundEdge :=
  ⟨t, prim_num, if starting then EdgeType.Start else EdgeType.End⟩

/-- `impl Default for BoundEdge` -/
def BoundEdge.default : BoundEdge := ⟨0, 0, EdgeType.Start⟩

/-- The order induced by the sort comparator of `build_tree`
(lines 199-205): ascending by `t`, ties broken by the derived order of
`EdgeType` (`Start = 0` before `End = 1`). -/
def edgeLeRel (e0 e1 : BoundEdge) : Prop :=
  e0.t < e1.t ∨ (e0.t = e1.t ∧ EdgeType.toNat e0.edge_type ≤ EdgeType.toNat e1.edge_type)

instance : DecidableRel edgeLeRel := fun e0 e1 => by
  unfold edgeLeRel; infer_instance

instance : IsTotal BoundEdge edgeLeRel where
  total a b := by
    rcases lt_trichotomy a.t b.t with h | h | h
    · exact Or.inl (Or.inl h)
    · rcases Nat.le_total (EdgeType.toNat a.edge_type) (EdgeType.toNat b.edge_type) with h2 | h2
      · exact Or.inl (Or.inr ⟨h, h2⟩)
      · exact Or.inr (Or.inr ⟨h.symm, h2⟩)
    · exact Or.inr (Or.inl h)

instance : IsTrans BoundEdge edgeLeRel where
  trans a b c hab hbc := by
    rcases hab with h1 | ⟨h1, h1t⟩
    · rcases hbc with h2 | ⟨h2, _⟩
      · exact Or.inl (h1.trans h2)
      · exact Or.inl (h2 ▸ h1)
    · rcases hbc with h2 | ⟨h2, h2t⟩
      · exact Or.inl (h1 ▸ h2)
      · exact Or.inr ⟨h1.trans h2, h1t.trans h2t⟩

/-- The edge sort of `build_tree` (`sort_unstable_by` with the comparator of
lines 199-205); any sorting algorithm with this comparator realizes the same
ordering contract, the relative order of fully equal keys being unspecified
by `sort_unstable_by`. -/
def sortEdges (es : List BoundEdge) : List BoundEdge :=
  es.insertionSort edgeLeRel

/-- `pub struct KdAccelNode {}` (the node type of the fragment carries no
fields). -/
structure KdAccelNode where
deriving DecidableEq

/-- `pub struct KdTreeAccel`.  The input primitives are represented by their
world-space bounding boxes, the only capability construction uses. -/
structure KdTreeAccel where
  isect_cost : ℤ
  traversal_cost : ℤ
  max_prims : ℤ
  empty_bonus : Float
  primitives : List Bounds3f
  nodes : List KdAccelNode
  n_alloced_nodes : ℤ
  next_free_node : ℤ
  bounds : Bounds3f
deriving DecidableEq

/-- A write `l[i] = a` into a Rust slice: panics (`none`) when `i` is out of
bounds. -/
def writeAt {α : Type} (l : List α) (i : ℕ) (a : α) : Option (List α) :=
  if i < l.length then some (l.set i a) else none

/-- The three per-axis edge scratch vectors. -/
structure Edges3 where
  e0 : List BoundEdge
  e1 : List BoundEdge
  e2 : List BoundEdge
deriving DecidableEq

def Edges3.get (E : Edges3) (i : Fin 3) : List BoundEdge :=
  if i.val = 0 then E.e0 else if i.val = 1 then E.e1 else E.e2

def Edges3.set (E : Edges3) (i : Fin 3) (es : List BoundEdge) : Edges3 :=
  if i.val = 0 then ⟨es, E.e1, E.e2⟩
  else if i.val = 1 then ⟨E.e0, es, E.e2⟩
  else ⟨E.e0, E.e1, es⟩

/-- Lines 192-197 of `build_tree`: write the `2 * n_primitives` bound edges
of the current primitive set into the scratch vector for `axis`. -/
def initEdges (all_prim_bounds : List Bounds3f) (prim_nums : List ℕ)
    (n_primitives : ℕ) (axis : Fin 3) (es0 : List BoundEdge) :
    Option (List BoundEdge) :=
  (List.range n_primitives).foldlM (fun es i => do
    let pn ← prim_nums[i]?
    let b ← all_prim_bounds[pn]?
    let es ← writeAt es (2 * i) (BoundEdge.new (b.p_min.nth axis) pn true)
    writeAt es (2 * i + 1) (BoundEdge.new (b.p_max.nth axis) pn false)) es0

/-- The best split found so far (`best_cost`, `best_axis`, `best_offset`);
`none` plays the role of `best_cost = ∞`, `best_axis = -1`,
`best_offset = -1`. -/
structure BestSplit where
  cost : Float
  axis : Fin 3
  offset : ℕ
deriving DecidableEq

/-- `cost < best_cost`, where an absent best split stands for `∞`. -/
def costLtBest (c : Float) (best : Option BestSplit) : Bool :=
  match best with
  | none => true
  | some b => decide (c < b.cost)

/-- `best_cost > x`, where an absent best split stands for
`best_cost = ∞`. -/
def bestCostGT (best : Option BestSplit) (x : Float) : Bool :=
  match best with
  | none => true
  | some b => decide (x < b.cost)

/-- The running counters and best split of the sweep of lines 212-252. -/
structure SweepState where
  n_below : ℕ
  n_above : ℕ
  best : Option BestSplit
deriving DecidableEq

/-- Lines 215-217: `if edge_type == End { n_above -= 1 }`, with the `usize`
underflow panic embedded as `none`. -/
def decAbove (edge_type : EdgeType) (n_above : ℕ) : Option ℕ :=
  if edge_type = EdgeType.End then
    (if n_above = 0 then none else some (n_above - 1))
  else
    some n_above

/-- Lines 219-251: when the edge position is strictly interior to the node
bounds on `axis`, compute the SAH cost of splitting there and keep it as the
best split if it beats the best so far. -/
def sweepCandidate (isect_cost traversal_cost : ℤ) (empty_bonus : Float)
    (node_bounds : Bounds3f) (axis : Fin 3) (e : BoundEdge) (i : ℕ)
    (n_below na : ℕ) (best : Option BestSplit) : Option BestSplit :=
  if e.t > node_bounds.p_min.nth axis ∧ e.t < node_bounds.p_max.nth axis then
    let d : Vector3f := node_bounds.p_max - node_bounds.p_min
    let inv_total_sa : Float := 1 / node_bounds.surface_area
    let oa0 : Fin 3 := axis + 1
    let oa1 : Fin 3 := axis + 2
    let below_sa : Float := 2 * (d.nth oa0 * d.nth oa1
      + (e.t - node_bounds.p_min.nth axis) * (d.nth oa0 + d.nth oa1))
    let above_sa : Float := 2 * (d.nth oa0 * d.nth oa1
      + (node_bounds.p_max.nth axis - e.t) * (d.nth oa0 + d.nth oa1))
    let p_below : Float := below_sa * inv_total_sa
    let p_above : Float := above_sa * inv_total_sa
    let eb : Float := if na = 0 ∨ n_below = 0 then empty_bonus else 0
    let cost : Float := (traversal_cost : Float)
      + (isect_cost : Float) * (1 - eb)
        * (p_below * (n_below : Float) + p_above * (na : Float))
    if costLtBest cost best = true then some ⟨cost, axis, i⟩ else best
  else
    best

/-- One iteration of the sweep loop of lines 214-252 at edge index `i`.
Only `n_above` and `best` are updated; the source contains no `n_below`
increment on `Start` edges. -/
def sweepStep (isect_cost traversal_cost : ℤ) (empty_bonus : Float)
    (node_bounds : Bounds3f) (axis : Fin 3) (es : List BoundEdge)
    (st : SweepState) (i : ℕ) : Option SweepState :=
  match es[i]? with
  | none => none
  | some e =>
    match decAbove e.edge_type st.n_above with
    | none => none
    | some na =>
      some ⟨st.n_below, na,
        sweepCandidate isect_cost traversal_cost empty_bonus node_bounds axis
          e i st.n_below na st.best⟩

/-- Lines 212-252 of `build_tree`: sweep the sorted edge list left to
right, starting from `n_below = 0` and `n_above = n_primitives`, computing
the SAH cost of every split candidate strictly interior to the node
bounds. -/
def sweepAxis (isect_cost traversal_cost : ℤ) (empty_bonus : Float)
    (node_bounds : Bounds3f) (axis : Fin 3) (n_primitives : ℕ)
    (best0 : Option BestSplit) (es : List BoundEdge) : Option SweepState :=
  (List.range (2 * n_primitives)).foldlM
    (sweepStep isect_cost traversal_cost empty_bonus node_bounds axis es)
    ⟨0, n_primitives, best0⟩

/-- One iteration of the `retrySplit` loop (lines 190-262): initialize and
sort the edges for the current axis, sweep them, check the consistency
assertion `n_below == n_primitives && n_above == 0` (panic = `none` on
failure), then either break with the found split or hand the updated edge
vectors to the retry continuation. -/
def splitIter (isect_cost traversal_cost : ℤ) (empty_bonus : Float)
    (node_bounds : Bounds3f) (all_prim_bounds : List Bounds3f)
    (prim_nums : List ℕ) (n_primitives : ℕ) (axis : Fin 3) (E : Edges3)
    (best0 : Option BestSplit)
    (retryCont : Edges3 → Option (Edges3 × Option BestSplit)) :
    Option (Edges3 × Option BestSplit) :=
  match initEdges all_prim_bounds prim_nums n_primitives axis (E.get axis) with
  | none => none
  | some es0 =>
    match sweepAxis isect_cost traversal_cost empty_bonus node_bounds axis
        n_primitives best0 (sortEdges es0) with
    | none => none
    | some st =>
      if st.n_below = n_primitives ∧ st.n_above = 0 then
        match st.best with
        | some b => some (E.set axis (sortEdges es0), some b)
        | none => retryCont (E.set axis (sortEdges es0))
      else
        none

/-- The `retrySplit` loop of lines 190-262, with `fuel = 2 - retries`
remaining retries: while no valid split is found and retries remain, cycle
to the next axis; otherwise break. -/
def splitLoopAux (isect_cost traversal_cost : ℤ) (empty_bonus : Float)
    (node_bounds : Bounds3f) (all_prim_bounds : List Bounds3f)
    (prim_nums : List ℕ) (n_primitives : ℕ) :
    ℕ → Fin 3 → Edges3 → Option BestSplit → Option (Edges3 × Option BestSplit)
  | 0, axis, E, best0 =>
    splitIter isect_cost traversal_cost empty_bonus node_bounds
      all_prim_bounds prim_nums n_primitives axis E best0
      (fun E2 => some (E2, none))
  | Nat.succ fuel2, axis, E, best0 =>
    splitIter isect_cost traversal_cost empty_bonus node_bounds
      all_prim_bounds prim_nums n_primitives axis E best0
      (fun E2 =>
        splitLoopAux isect_cost traversal_cost empty_bonus node_bounds
          all_prim_bounds prim_nums n_primitives fuel2 (axis + 1) E2 none)

/-- One pass of the classification loops of lines 274-287: scan the given
edges in order, and for each edge of kind `keep` write its primitive number
at the next free index of the scratch buffer (panic = `none` when the write
is out of bounds, as for a Rust slice). -/
def classifyLoop (keep : EdgeType) :
    List ℕ → ℕ → List BoundEdge → Option (List ℕ × ℕ)
  | p, k, [] => some (p, k)
  | p, k, e :: es =>
    if e.edge_type = keep then
      match writeAt p k e.prim_num with
      | none => none
      | some p1 => classifyLoop keep p1 (k + 1) es
    else
      classifyLoop keep p k es

/-- Lines 276-281: `for i in 0..best_offset`, collecting the `Start` edges
into `prims0`.  The loop reads `edges[best_axis][i]`, so it panics when the
range runs past the edge vector. -/
def classifyBelow (es : List BoundEdge) (best_offset : ℕ) (prims0 : List ℕ) :
    Option (List ℕ × ℕ) :=
  if best_offset ≤ es.length then
    classifyLoop EdgeType.Start prims0 0 (es.take best_offset)
  else
    none

/-- Lines 282-287: `for i in (best_offset + 1)..(2 * n_primitives)`,
collecting the `End` edges into `prims1`. -/
def classifyAbove (es : List BoundEdge) (best_offset : ℕ) (n_primitives : ℕ)
    (prims1 : List ℕ) : Option (List ℕ × ℕ) :=
  if 2 * n_primitives ≤ best_offset + 1 then
    some (prims1, 0)
  else if 2 * n_primitives ≤ es.length then
    classifyLoop EdgeType.End prims1 0
      ((es.drop (best_offset + 1)).take (2 * n_primitives - (best_offset + 1)))
  else
    none

/-- The observable outcome of one `build_tree` invocation: the mutated
`self`, the scratch buffers, and (as additional observables) the winning
split, the updated bad-refines counter, whether the early leaf-return of
line 271 was taken, and the classification counts `n0`, `n1`. -/
structure BuildResult where
  self : KdTreeAccel
  edges : Edges3
  prims0 : List ℕ
  prims1 : List ℕ
  best : Option BestSplit
  bad_refines : ℤ
  leafReturn : Bool
  n0 : ℕ
  n1 : ℕ
deriving DecidableEq

/-- Lines 273-288 of `build_tree`: the continuation taken when no
leaf-forcing condition holds.  It classifies the primitives with respect to
the winning split and then falls off the end of the function: the fragment
writes no interior node, allocates no child nodes, and does not recurse. -/
def interiorStage (self2 : KdTreeAccel) (edges : Edges3) (b : BestSplit)
    (n_primitives : ℕ) (prims0 prims1 : List ℕ) (best : Option BestSplit)
    (bad_refines : ℤ) : Option BuildResult :=
  match classifyBelow (edges.get b.axis) b.offset prims0 with
  | none => none
  | some (p0, n0) =>
    match classifyAbove (edges.get b.axis) b.offset n_primitives prims1 with
    | none => none
    | some (p1, n1) =>
      some ⟨self2, edges, p0, p1, best, bad_refines, false, n0, n1⟩

/-- Lines 263-265 of `build_tree`: `if best_cost > old_cost { bad_refines
+= 1 }` (with `best_cost = ∞` when no split was found). -/
def badRefinesAfter (best : Option BestSplit) (old_cost : Float)
    (bad_refines : ℤ) : ℤ :=
  if bestCostGT best old_cost = true then bad_refines + 1 else bad_refines

/-- Lines 266-269 of `build_tree`: the leaf-forcing condition, evaluated on
the already-updated bad-refines counter. -/
def leafForced (best : Option BestSplit) (old_cost : Float)
    (n_primitives : ℕ) (bad1 : ℤ) : Prop :=
  (bestCostGT best (4 * old_cost) = true ∧ n_primitives < 16)
    ∨ best = none ∨ bad1 = 3

instance (best : Option BestSplit) (old_cost : Float) (n_primitives : ℕ)
    (bad1 : ℤ) : Decidable (leafForced best old_cost n_primitives bad1) := by
  unfold leafForced; infer_instance

/-- Lines 178-288 of `build_tree`: everything after the entry assertion and
the `next_free_node` increment (`self2` is the already-incremented
receiver, whose cost parameters coincide with the original's). -/
def buildAfterEntry (self2 : KdTreeAccel) (node_bounds : Bounds3f)
    (all_prim_bounds : List Bounds3f) (prim_nums : List ℕ)
    (n_primitives : ℕ) (edges : Edges3) (prims0 prims1 : List ℕ)
    (bad_refines : ℤ) : Option BuildResult :=
  match splitLoopAux self2.isect_cost self2.traversal_cost self2.empty_bonus
      node_bounds all_prim_bounds prim_nums n_primitives 2
      node_bounds.maximum_extent edges none with
  | none => none
  | some (edges2, best) =>
    if leafForced best ((self2.isect_cost : Float) * (n_primitives : Float))
        n_primitives
        (badRefinesAfter best ((self2.isect_cost : Float) * (n_primitives : Float))
          bad_refines) then
      -- line 270: `init_leaf` is an unimplemented TODO; nothing is written
      some ⟨self2, edges2, prims0, prims1, best,
        badRefinesAfter best ((self2.isect_cost : Float) * (n_primitives : Float))
          bad_refines, true, 0, 0⟩
    else
      match best with
      | none => none
      | some b =>
        interiorStage self2 edges2 b n_primitives prims0 prims1 best
          (badRefinesAfter best
            ((self2.isect_cost : Float) * (n_primitives : Float)) bad_refines)

/-- `KdTreeAccel::build_tree` (lines 161-288).  `assert_eq!` and `assert!`
failures, out-of-bounds accesses and `usize` underflow are `none`.
Line 175 (`if self.next_free_node == self.n_alloced_nodes {}`) is a no-op. -/
def KdTreeAccel.build_tree (self : KdTreeAccel) (node_num : ℤ)
    (node_bounds : Bounds3f) (all_prim_bounds : List Bounds3f)
    (prim_nums : List ℕ) (n_primitives : ℕ) (edges : Edges3)
    (prims0 prims1 : List ℕ) (bad_refines : ℤ) : Option BuildResult :=
  if node_num = self.next_free_node then
    buildAfterEntry { self with next_free_node := self.next_free_node + 1 }
      node_bounds all_prim_bounds prim_nums n_primitives edges prims0 prims1
      bad_refines
  else
    none

/-- Lines 83-86 of `KdTreeAccel::new`: the automatically derived maximum
depth `round(8 + 1.3 * log_2_int(primitiveCount))`. -/
def derivedMaxDepth (p_len : ℕ) : ℤ :=
  round ((8 : ℚ) + (13 / 10 : ℚ) * ((log_2_int_i32 p_len : ℤ) : ℚ))

/-- Lines 87-93 of `KdTreeAccel::new`: fold the primitives' world bounds
into the scene bound, starting from the default (empty) box. -/
def sceneBounds (prim_bounds : List Bounds3f) : Bounds3f :=
  prim_bounds.foldl bnd3_union_bnd3 Bounds3f.default

/-- The scratch buffers of lines 94-117 of `KdTreeAccel::new`, together with
the capacity reserved for `prims1`. The loop filling `prims1` iterates over
`0..prims1.len()` where the length is still `0` (only capacity was
reserved), so `prims1` ends up holding no elements. -/
structure Scratch where
  edges : Edges3
  prims0 : List ℕ
  prims1 : List ℕ
  prims1_capacity : ℤ
deriving DecidableEq

/-- Lines 94-117 of `KdTreeAccel::new`: allocate the three per-axis edge
vectors (`2 * p_len` default edges each), `prims0` (`p_len` zeroes), and
`prims1` (capacity `(max_depth + 1) * p_len`, but zero elements). -/
def allocScratch (p_len : ℕ) (max_depth : ℤ) : Scratch :=
  let e : List BoundEdge := List.replicate (2 * p_len) BoundEdge.default
  ⟨⟨e, e, e⟩, List.replicate p_len 0, [], (max_depth + 1) * (p_len : ℤ)⟩

/-- `KdTreeAccel::new` (lines 69-145): derive the max depth, compute the
scene bound, allocate scratch, seed `prim_nums = [0, ..., p_len - 1]`, and
run `build_tree` once at node 0.  A panic anywhere is `none`. -/
def KdTreeAccel.newF (p : List Bounds3f) (isect_cost traversal_cost : ℤ)
    (empty_bonus : Float) (max_prims max_depth : ℤ) : Option KdTreeAccel :=
  let p_len : ℕ := p.length
  let max_depth2 : ℤ := if max_depth ≤ 0 then derivedMaxDepth p_len else max_depth
  let bounds : Bounds3f := sceneBounds p
  let prim_bounds : List Bounds3f := p
  let scratch : Scratch := allocScratch p_len max_depth2
  let prim_nums : List ℕ := List.range p_len
  let kd : KdTreeAccel :=
    ⟨isect_cost, traversal_cost, max_prims, empty_bonus, p, [], 0, 0, bounds⟩
  (KdTreeAccel.build_tree kd 0 bounds prim_bounds prim_nums p_len
      scratch.edges scratch.prims0 scratch.prims1 0).map BuildResult.self

/-- `impl Primitive for KdTreeAccel`, lines 291-310.  The collaborator types
`Ray`, `SurfaceInteraction`, `Material` and `AreaLight` live outside the
fragment; the stub bodies never inspect them. -/
structure Ray where
  o : Vector3f
  d : Vector3f

structure SurfaceInteraction where

structure Material where

structure AreaLight where

/-- Lines 292-295: `world_bound` is a stub (`// WORK`) returning
`Bounds3f::default()`. -/
def KdTreeAccel.world_bound (_self : KdTreeAccel) : Bounds3f :=
  Bounds3f.default

/-- Lines 296-299: `intersect` is a stub returning `None`. -/
def KdTreeAccel.intersect (_self : KdTreeAccel) (_ray : Ray) :
    Option SurfaceInteraction :=
  none

/-- Lines 300-303: `intersect_p` is a stub returning `false`. -/
def KdTreeAccel.intersect_p (_self : KdTreeAccel) (_ray : Ray) : Bool :=
  false

/-- Lines 304-306. -/
def KdTreeAccel.get_material (_self : KdTreeAccel) : Option Material :=
  none

/-- Lines 307-309. -/
def KdTreeAccel.get_area_light (_self : KdTreeAccel) : Option AreaLight :=
  none

/-- `B` contains `A` as an axis-aligned interval box, componentwise. -/
def boxContains (outer inner : Bounds3f) : Prop :=
  outer.p_min.x ≤ inner.p_min.x ∧ outer.p_min.y ≤ inner.p_min.y ∧
  outer.p_min.z ≤ inner.p_min.z ∧ inner.p_max.x ≤ outer.p_max.x ∧
  inner.p_max.y ≤ outer.p_max.y ∧ inner.p_max.z ≤ outer.p_max.z

/-- The box has coordinates within the representable range, so that it
contains the default (empty) box. -/
def boxInRange (b : Bounds3f) : Prop :=
  b.p_min.x ≤ maxFloat ∧ b.p_min.y ≤ maxFloat ∧ b.p_min.z ≤ maxFloat ∧
  -maxFloat ≤ b.p_max.x ∧ -maxFloat ≤ b.p_max.y ∧ -maxFloat ≤ b.p_max.z

instance (a b : Bounds3f) : Decidable (boxContains a b) := by
  unfold boxContains; infer_instance

instance (b : Bounds3f) : Decidable (boxInRange b) := by
  unfold boxInRange; infer_instance

theorem boxContains_refl (b : Bounds3f) : boxContains b b :=
  ⟨le_refl _, le_refl _, le_refl _, le_refl _, le_refl _, le_refl _⟩

theorem boxContains_trans {a b c : Bounds3f} (h1 : boxContains a b)
    (h2 : boxContains b c) : boxContains a c :=
  ⟨h1.1.trans h2.1, h1.2.1.trans h2.2.1, h1.2.2.1.trans h2.2.2.1,
   h2.2.2.2.1.trans h1.2.2.2.1, h2.2.2.2.2.1.trans h1.2.2.2.2.1,
   h2.2.2.2.2.2.trans h1.2.2.2.2.2⟩

theorem union_boxContains_left (a c : Bounds3f) :
    boxContains (bnd3_union_bnd3 a c) a :=
  ⟨min_le_left _ _, min_le_left _ _, min_le_left _ _,
   le_max_left _ _, le_max_left _ _, le_max_left _ _⟩

theorem union_boxContains_right (a c : Bounds3f) :
    boxContains (bnd3_union_bnd3 a c) c :=
  ⟨min_le_right _ _, min_le_right _ _, min_le_right _ _,
   le_max_right _ _, le_max_right _ _, le_max_right _ _⟩

theorem boxContains_union {B a c : Bounds3f} (ha : boxContains B a)
    (hc : boxContains B c) : boxContains B (bnd3_union_bnd3 a c) :=
  ⟨le_min ha.1 hc.1, le_min ha.2.1 hc.2.1, le_min ha.2.2.1 hc.2.2.1,
   max_le ha.2.2.2.1 hc.2.2.2.1, max_le ha.2.2.2.2.1 hc.2.2.2.2.1,
   max_le ha.2.2.2.2.2 hc.2.2.2.2.2⟩

theorem foldl_union_boxContains_acc :
    ∀ (l : List Bounds3f) (acc : Bounds3f),
      boxContains (l.foldl bnd3_union_bnd3 acc) acc
  | [], acc => boxContains_refl acc
  | b :: l, acc =>
    boxContains_trans (foldl_union_boxContains_acc l (bnd3_union_bnd3 acc b))
      (union_boxContains_left acc b)

theorem foldl_union_boxContains_mem :
    ∀ (l : List Bounds3f) (acc b : Bounds3f), b ∈ l →
      boxContains (l.foldl bnd3_union_bnd3 acc) b := by
  intro l
  induction l with
  | nil => intro acc b hb; exact absurd hb (List.not_mem_nil b)
  | cons c l ih =>
    intro acc b hb
    rcases List.mem_cons.mp hb with h | h
    · subst h
      exact boxContains_trans
        (foldl_union_boxContains_acc l (bnd3_union_bnd3 acc b))
        (union_boxContains_right acc b)
    · exact ih (bnd3_union_bnd3 acc c) b h

theorem foldl_union_lub :
    ∀ (l : List Bounds3f) (B acc : Bounds3f), boxContains B acc →
      (∀ b ∈ l, boxContains B b) →
      boxContains B (l.foldl bnd3_union_bnd3 acc) := by
  intro l
  induction l with
  | nil => intro B acc hacc _; exact hacc
  | cons c l ih =>
    intro B acc hacc hl
    exact ih B (bnd3_union_bnd3 acc c)
      (boxContains_union hacc (hl c (List.mem_cons_self c l)))
      (fun b hb => hl b (List.mem_cons_of_mem c hb))

theorem boxContains_default_of_inRange {B : Bounds3f} (h : boxInRange B) :
    boxContains B Bounds3f.default :=
  ⟨h.1, h.2.1, h.2.2.1, h.2.2.2.1, h.2.2.2.2.1, h.2.2.2.2.2⟩

/-- A step-indexed invariant-preservation principle for `foldlM` over
`Option`. -/
theorem foldlM_preserve {α σ : Type} (f : σ → α → Option σ) (P : σ → Prop)
    (hf : ∀ s a s2, f s a = some s2 → P s → P s2) :
    ∀ (l : List α) (s0 s1 : σ), l.foldlM f s0 = some s1 → P s0 → P s1 := by
  intro l
  induction l with
  | nil => intro s0 s1 h hp; cases h; exact hp
  | cons a l ih =>
    intro s0 s1 h hp
    rw [List.foldlM_cons] at h
    cases hfa : f s0 a with
    | none => rw [hfa] at h; exact absurd h (by simp)
    | some s2 =>
      rw [hfa] at h
      exact ih s2 s1 h (hf s0 a s2 hfa hp)

/-- The sweep of lines 212-252 never modifies `n_below`: the source omits
the `n_below` increment on `Start` edges. -/
theorem sweepStep_n_below {isect_cost traversal_cost : ℤ}
    {empty_bonus : Float} {node_bounds : Bounds3f} {axis : Fin 3}
    {es : List BoundEdge} {st : SweepState} {i : ℕ} {st2 : SweepState}
    (h : sweepStep isect_cost traversal_cost empty_bonus node_bounds axis es
      st i = some st2) :
    st2.n_below = st.n_below := by
  unfold sweepStep at h
  split at h
  · exact absurd h (by simp)
  · split at h
    · exact absurd h (by simp)
    · cases h; rfl

/-- `n_below` ends the sweep at its initial value `0`. -/
theorem sweepAxis_n_below {isect_cost traversal_cost : ℤ}
    {empty_bonus : Float} {node_bounds : Bounds3f} {axis : Fin 3}
    {n_primitives : ℕ} {best0 : Option BestSplit} {es : List BoundEdge}
    {st : SweepState}
    (h : sweepAxis isect_cost traversal_cost empty_bonus node_bounds axis
      n_primitives best0 es = some st) :
    st.n_below = 0 :=
  foldlM_preserve _ (fun s => s.n_below = 0)
    (fun _ _ _ hstep hp => (sweepStep_n_below hstep).trans hp)
    _ _ _ h rfl

/-- With zero primitives the sweep is empty and returns its initial
state. -/
theorem sweepAxis_zero (isect_cost traversal_cost : ℤ) (empty_bonus : Float)
    (node_bounds : Bounds3f) (axis : Fin 3) (best0 : Option BestSplit)
    (es : List BoundEdge) :
    sweepAxis isect_cost traversal_cost empty_bonus node_bounds axis 0 best0
      es = some ⟨0, 0, best0⟩ :=
  rfl

/-- An iteration entered with no best split can only succeed through the
assertion with `n_primitives = 0` (since `n_below` is stuck at `0`), in
which case the empty sweep finds no split: the result is whatever the retry
continuation produces. -/
theorem splitIter_snd_none {isect_cost traversal_cost : ℤ}
    {empty_bonus : Float} {node_bounds : Bounds3f}
    {all_prim_bounds : List Bounds3f} {prim_nums : List ℕ}
    {n_primitives : ℕ} {axis : Fin 3} {E : Edges3}
    {retryCont : Edges3 → Option (Edges3 × Option BestSplit)}
    {r : Edges3 × Option BestSplit}
    (h : splitIter isect_cost traversal_cost empty_bonus node_bounds
      all_prim_bounds prim_nums n_primitives axis E none retryCont = some r)
    (hcont : ∀ E2 s, retryCont E2 = some s → s.2 = none) :
    r.2 = none := by
  unfold splitIter at h
  split at h
  · exact absurd h (by simp)
  · split at h
    · exact absurd h (by simp)
    · next st hsweep =>
      split at h
      · next hassert =>
        have hnb : st.n_below = 0 := sweepAxis_n_below hsweep
        have hn : n_primitives = 0 := by omega
        subst hn
        rw [sweepAxis_zero] at hsweep
        cases hsweep
        exact hcont _ _ h
      · exact absurd h (by simp)

/-- Starting from no best split, the retry loop can only succeed with no
best split: the consistency assertion `n_below == n_primitives` together
with the stuck-at-zero `n_below` forces `n_primitives = 0`, and an empty
sweep never finds a split. -/
theorem splitLoopAux_best_none {isect_cost traversal_cost : ℤ}
    {empty_bonus : Float} {node_bounds : Bounds3f}
    {all_prim_bounds : List Bounds3f} {prim_nums : List ℕ}
    {n_primitives : ℕ} :
    ∀ (fuel : ℕ) (axis : Fin 3) (E E2 : Edges3) (best : Option BestSplit),
      splitLoopAux isect_cost traversal_cost empty_bonus node_bounds
        all_prim_bounds prim_nums n_primitives fuel axis E none =
          some (E2, best) →
      best = none := by
  intro fuel
  induction fuel with
  | zero =>
    intro axis E E2 best h
    unfold splitLoopAux at h
    exact splitIter_snd_none h (fun E3 s hs => by cases hs; rfl)
  | succ fuel2 ih =>
    intro axis E E2 best h
    unfold splitLoopAux at h
    refine splitIter_snd_none h (fun E3 s hs => ?_)
    cases s with
    | mk E4 b4 => exact ih (axis + 1) E3 E4 b4 hs

theorem interiorStage_fields {self2 : KdTreeAccel} {edges : Edges3}
    {b : BestSplit} {n_primitives : ℕ} {prims0 prims1 : List ℕ}
    {best : Option BestSplit} {bad_refines : ℤ} {r : BuildResult}
    (h : interiorStage self2 edges b n_primitives prims0 prims1 best
      bad_refines = some r) :
    r.self = self2 ∧ r.best = best ∧ r.bad_refines = bad_refines ∧
      r.leafReturn = false := by
  unfold interiorStage at h
  split at h
  · exact absurd h (by simp)
  · split at h
    · exact absurd h (by simp)
    · cases h; exact ⟨rfl, rfl, rfl, rfl⟩

theorem buildAfterEntry_fields {self2 : KdTreeAccel} {nb : Bounds3f}
    {apb : List Bounds3f} {pns : List ℕ} {n : ℕ} {E : Edges3}
    {p0 p1 : List ℕ} {br : ℤ} {r : BuildResult}
    (h : buildAfterEntry self2 nb apb pns n E p0 p1 br = some r) :
    r.self = self2 ∧
    r.bad_refines =
      badRefinesAfter r.best ((self2.isect_cost : Float) * (n : Float)) br ∧
    (r.leafReturn = true ↔
      leafForced r.best ((self2.isect_cost : Float) * (n : Float)) n
        r.bad_refines) := by
  unfold buildAfterEntry at h
  split at h
  · exact absurd h (by simp)
  · split at h
    · next hc =>
      cases h
      exact ⟨rfl, rfl, by simpa using hc⟩
    · next hc =>
      split at h
      · exact absurd h (by simp)
      · obtain ⟨h1, h2, h3, h4⟩ := interiorStage_fields h
        refine ⟨h1, by rw [h3, h2], ?_⟩
        rw [h4, h2, h3]
        constructor
        · intro hcontra; exact absurd hcontra (by simp)
        · intro hlf; exact absurd hlf hc

/-- Every completed invocation of the post-entry body takes the early leaf
return of line 271: the classification branch is dead code. -/
theorem buildAfterEntry_leafReturn {self2 : KdTreeAccel} {nb : Bounds3f}
    {apb : List Bounds3f} {pns : List ℕ} {n : ℕ} {E : Edges3}
    {p0 p1 : List ℕ} {br : ℤ} {r : BuildResult}
    (h : buildAfterEntry self2 nb apb pns n E p0 p1 br = some r) :
    r.leafReturn = true := by
  unfold buildAfterEntry at h
  split at h
  · exact absurd h (by simp)
  · next edges2 best heq =>
    have hb : best = none := splitLoopAux_best_none _ _ _ _ _ heq
    split at h
    · cases h; rfl
    · next hc =>
      exact absurd (Or.inr (Or.inl hb)) hc

/-- Sequentially write the values `vs` into the buffer starting at index
`k`, failing like a Rust slice write when an index is out of bounds. -/
def writeSeq (p : List ℕ) (k : ℕ) : List ℕ → Option (List ℕ)
  | [] => some p
  | v :: vs =>
    match writeAt p k v with
    | none => none
    | some p1 => writeSeq p1 (k + 1) vs

/-- A classification loop writes exactly the primitive numbers of the edges
of its kind, in order, into consecutive buffer slots, and returns the count
of edges of that kind. -/
theorem classifyLoop_eq_writeSeq (keep : EdgeType) :
    ∀ (l : List BoundEdge) (p : List ℕ) (k : ℕ) (res : List ℕ × ℕ),
      classifyLoop keep p k l = some res →
      res.2 = k + (l.filter (fun e => decide (e.edge_type = keep))).length ∧
      writeSeq p k
          ((l.filter (fun e => decide (e.edge_type = keep))).map
            BoundEdge.prim_num) = some res.1 := by
  intro l
  induction l with
  | nil =>
    intro p k res h
    cases h
    exact ⟨rfl, rfl⟩
  | cons e es ih =>
    intro p k res h
    unfold classifyLoop at h
    by_cases hk : e.edge_type = keep
    · rw [if_pos hk] at h
      cases hw : writeAt p k e.prim_num with
      | none => rw [hw] at h; exact absurd h (by simp)
      | some p1 =>
        rw [hw] at h
        obtain ⟨h1, h2⟩ := ih p1 (k + 1) res h
        constructor
        · rw [h1, List.filter_cons_of_pos (by simpa using hk)]
          simp only [List.length_cons]
          omega
        · rw [List.filter_cons_of_pos (by simpa using hk), List.map_cons]
          unfold writeSeq
          rw [hw]
          exact h2
    · rw [if_neg hk] at h
      obtain ⟨h1, h2⟩ := ih p k res h
      rw [List.filter_cons_of_neg (by simpa using hk)]
      exact ⟨h1, h2⟩

/-- A successful sequential write preserves the buffer length and the
prefix before the write position, and afterward the written slots hold
exactly the written values. -/
theorem writeSeq_spec :
    ∀ (vs : List ℕ) (p : List ℕ) (k : ℕ) (p2 : List ℕ),
      writeSeq p k vs = some p2 →
      p2.length = p.length ∧ p2.take k = p.take k ∧
        (p2.drop k).take vs.length = vs := by
  intro vs
  induction vs with
  | nil =>
    intro p k p2 h
    cases h
    exact ⟨rfl, rfl, by simp⟩
  | cons v vs ih =>
    intro p k p2 h
    unfold writeSeq at h
    cases hw : writeAt p k v with
    | none => rw [hw] at h; exact absurd h (by simp)
    | some p1 =>
      rw [hw] at h
      obtain ⟨hl, ht, hd⟩ := ih p1 (k + 1) p2 h
      have hklt : k < p.length := by
        by_contra hge
        unfold writeAt at hw
        rw [if_neg hge] at hw
        exact absurd hw (by simp)
      have hp1 : p1 = p.set k v := by
        unfold writeAt at hw
        rw [if_pos hklt] at hw
        exact (Option.some.inj hw).symm
      subst hp1
      rw [List.length_set] at hl
      have hk2 : k < p2.length := by omega
      have hmin : min k (k + 1) = k := by omega
      have htk : p2.take k = p.take k := by
        have e1 : p2.take k = (p2.take (k + 1)).take k := by
          rw [List.take_take, hmin]
        rw [e1, ht, List.take_take, hmin, List.set_take]
        exact List.set_eq_of_length_le (by rw [List.length_take]; omega)
      have hgetk : p2[k]? = some v := by
        have e2 : (p2.take (k + 1))[k]? = ((p.set k v).take (k + 1))[k]? := by
          rw [ht]
        rw [List.getElem?_take, List.getElem?_take, if_pos (by omega),
          if_pos (by omega)] at e2
        rw [e2]
        rw [List.getElem?_set_self (by omega)]
      refine ⟨hl, htk, ?_⟩
      have hdrop : p2.drop k = p2[k] :: p2.drop (k + 1) :=
        List.drop_eq_getElem_cons hk2
      have hv : p2[k] = v := by
        have := List.getElem?_eq_getElem hk2
        rw [this] at hgetk
        exact Option.some.inj hgetk
      rw [hdrop, hv, List.length_cons, List.take_succ_cons, hd]

/-- `build_tree` returns its receiver unchanged except that `next_free_node`
was incremented once at entry; in particular it never touches `nodes`. -/
theorem build_tree_self_eq {self : KdTreeAccel} {node_num : ℤ}
    {node_bounds : Bounds3f} {all_prim_bounds : List Bounds3f}
    {prim_nums : List ℕ} {n_primitives : ℕ} {edges : Edges3}
    {prims0 prims1 : List ℕ} {bad_refines : ℤ} {r : BuildResult}
    (h : KdTreeAccel.build_tree self node_num node_bounds all_prim_bounds
      prim_nums n_primitives edges prims0 prims1 bad_refines = some r) :
    r.self = { self with next_free_node := self.next_free_node + 1 } := by
  unfold KdTreeAccel.build_tree at h
  split at h
  · exact (buildAfterEntry_fields h).1
  · exact absurd h (by simp)

/-- C1: contrary to the claim, construction does not run to completion for
a well-formed nonempty primitive collection: with a single unit-box
primitive and the default parameters, `KdTreeAccel::new` panics (the sweep
assertion fires because `n_below` is never incremented), and with zero
primitives it completes but produces no leaf node at all (the `nodes` array
stays empty, `init_leaf` being an unimplemented TODO). -/
theorem c1_construction_outcome :
    KdTreeAccel.newF [⟨⟨0, 0, 0⟩, ⟨1, 1, 1⟩⟩] 80 1 (1 / 2) 1 (-1) = none ∧
    (KdTreeAccel.newF [] 80 1 (1 / 2) 1 (-1)).map KdTreeAccel.nodes =
      some ([] : List KdAccelNode) := by
  exact ⟨by decide, by decide⟩

/-- C2: contrary to the claim, the sweep's internal consistency assertion
fails for every nonempty primitive count: with one primitive (unit box) the
sweep over its two edges ends with `n_below = 0` and `n_above = 0`, so
`n_below == primitiveCount` is violated and `build_tree` panics. -/
theorem c2_sweep_assert_violated :
    sweepAxis 80 1 (1 / 2) ⟨⟨0, 0, 0⟩, ⟨1, 1, 1⟩⟩ 2 1 none
        [⟨0, 0, EdgeType.Start⟩, ⟨1, 0, EdgeType.End⟩] =
      some ⟨0, 0, none⟩ ∧
    KdTreeAccel.build_tree
        ⟨80, 1, 1, 1 / 2, [⟨⟨0, 0, 0⟩, ⟨1, 1, 1⟩⟩], [], 0, 0,
          ⟨⟨0, 0, 0⟩, ⟨1, 1, 1⟩⟩⟩
        0 ⟨⟨0, 0, 0⟩, ⟨1, 1, 1⟩⟩ [⟨⟨0, 0, 0⟩, ⟨1, 1, 1⟩⟩] [0] 1
        ⟨[BoundEdge.default, BoundEdge.default],
         [BoundEdge.default, BoundEdge.default],
         [BoundEdge.default, BoundEdge.default]⟩ [0] [] 0 = none := by
  exact ⟨by decide, by decide⟩

/-- C3 counterexample: a tree holding one primitive with world bound
`[1,2]^3` (the very record construction builds) has
`world_bound() = Bounds3f::default()`, which differs from the union of the
primitive bounds. -/
theorem c3_counterexample :
    (⟨80, 1, 1, 1 / 2, [⟨⟨1, 1, 1⟩, ⟨2, 2, 2⟩⟩], [], 0, 1,
        sceneBounds [⟨⟨1, 1, 1⟩, ⟨2, 2, 2⟩⟩]⟩ : KdTreeAccel).world_bound ≠
      sceneBounds [⟨⟨1, 1, 1⟩, ⟨2, 2, 2⟩⟩] := by
  decide

/-- C3 amended: `world_bound` is a stub returning `Bounds3f::default()`
for every tree; the scene bound computed during construction (the `bounds`
field of any tree `new` returns) is `sceneBounds`, and `sceneBounds` is the
least box containing every primitive bound (among boxes with representable
coordinates). -/
theorem c3_scene_bound_is_union :
    (∀ t : KdTreeAccel, t.world_bound = Bounds3f.default) ∧
    (∀ (p : List Bounds3f) (ic tc : ℤ) (eb : Float) (mp md : ℤ)
       (t : KdTreeAccel), KdTreeAccel.newF p ic tc eb mp md = some t →
       t.bounds = sceneBounds p) ∧
    (∀ (pbs : List Bounds3f) (b : Bounds3f), b ∈ pbs →
       boxContains (sceneBounds pbs) b) ∧
    (∀ (pbs : List Bounds3f) (B : Bounds3f), boxInRange B →
       (∀ b ∈ pbs, boxContains B b) → boxContains B (sceneBounds pbs)) := by
  refine ⟨fun t => rfl, ?_, ?_, ?_⟩
  · intro p ic tc eb mp md t h
    unfold KdTreeAccel.newF at h
    dsimp only at h
    obtain ⟨r, hr, ht⟩ := Option.map_eq_some'.mp h
    rw [← ht, build_tree_self_eq hr]
  · intro pbs b hb
    exact foldl_union_boxContains_mem pbs Bounds3f.default b hb
  · intro pbs B hB hall
    exact foldl_union_lub pbs B Bounds3f.default
      (boxContains_default_of_inRange hB) hall

/-- C3 witness: the scene bound of a single box `[1,2]^3` contains that
box. -/
theorem c3_scene_bound_is_union_witness :
    boxContains (sceneBounds [⟨⟨1, 1, 1⟩, ⟨2, 2, 2⟩⟩]) ⟨⟨1, 1, 1⟩, ⟨2, 2, 2⟩⟩ :=
  c3_scene_bound_is_union.2.2.1 [⟨⟨1, 1, 1⟩, ⟨2, 2, 2⟩⟩]
    ⟨⟨1, 1, 1⟩, ⟨2, 2, 2⟩⟩ (by decide)

/-- C4: when the max-depth parameter is nonpositive, the derived maximum
depth is `round(8 + 1.3 * log2(primitiveCount))` (integer floor logarithm)
for every `primitiveCount ≥ 1`; in particular `1 ↦ 8` and `1024 ↦ 21`, and
the empty input `primitiveCount = 0` yields the defined value `8`. -/
theorem c4_auto_depth :
    (∀ n : ℕ, 1 ≤ n →
      derivedMaxDepth n =
        round ((8 : ℚ) + (13 / 10 : ℚ) * ((Nat.log2 n : ℕ) : ℚ))) ∧
    derivedMaxDepth 1 = 8 ∧ derivedMaxDepth 1024 = 21 ∧
    derivedMaxDepth 0 = 8 := by
  refine ⟨fun n _ => ?_, by decide, by decide, by decide⟩
  unfold derivedMaxDepth log_2_int_i32
  rw [log2Aux_eq_log2 n n le_rfl]
  norm_cast

/-- C4 witness at `primitiveCount = 1024`. -/
theorem c4_auto_depth_witness :
    derivedMaxDepth 1024 =
      round ((8 : ℚ) + (13 / 10 : ℚ) * ((Nat.log2 1024 : ℕ) : ℚ)) :=
  c4_auto_depth.1 1024 (by decide)

/-- C5: contrary to the claim, with one primitive and derived max depth 8
the three edge lists hold `2` elements each and `prims0` holds `1`, but
`prims1` holds `0` elements: only its capacity `(8 + 1) * 1 = 9` is
reserved, because its fill loop iterates over `0..prims1.len()` with the
length still `0`. -/
theorem c5_scratch_allocation :
    (allocScratch 1 8).edges.e0.length = 2 ∧
    (allocScratch 1 8).edges.e1.length = 2 ∧
    (allocScratch 1 8).edges.e2.length = 2 ∧
    (allocScratch 1 8).prims0.length = 1 ∧
    (allocScratch 1 8).prims1_capacity = 9 ∧
    (allocScratch 1 8).prims1.length = 0 := by
  decide

/-- C6 counterexample: on the empty input the leaf-forcing conditions hold
(no valid split exists) and `build_tree` takes the early return, yet no
leaf is emitted: the `nodes` array of the result is empty. -/
theorem c6_counterexample :
    KdTreeAccel.build_tree
        ⟨80, 1, 1, 1 / 2, [], [], 0, 0, ⟨⟨0, 0, 0⟩, ⟨1, 1, 1⟩⟩⟩ 0
        ⟨⟨0, 0, 0⟩, ⟨1, 1, 1⟩⟩ [] [] 0 ⟨[], [], []⟩ [] [] 0 =
      some ⟨⟨80, 1, 1, 1 / 2, [], [], 0, 1, ⟨⟨0, 0, 0⟩, ⟨1, 1, 1⟩⟩⟩,
        ⟨[], [], []⟩, [], [], none, 1, true, 0, 0⟩ ∧
    (⟨⟨80, 1, 1, 1 / 2, [], [], 0, 1, ⟨⟨0, 0, 0⟩, ⟨1, 1, 1⟩⟩⟩,
        ⟨[], [], []⟩, [], [], none, 1, true, 0, 0⟩ : BuildResult).self.nodes =
      [] := by
  exact ⟨by decide, by decide⟩

/-- C6 amended: every completed `build_tree` invocation takes the early
return of line 271 (with nothing written, the leaf write being a TODO)
exactly when: the best cost exceeds `4 * oldCost` and the primitive count
is below 16; or no valid split was found (`best = none`); or the updated
bad-refines counter equals 3 — and the bad-refines counter is incremented
exactly when `bestCost > oldCost` (with `∞ > oldCost` when no split was
found), independent of whether the early return is taken. -/
theorem c6_leaf_decision :
    ∀ (self : KdTreeAccel) (node_num : ℤ) (nb : Bounds3f)
      (apb : List Bounds3f) (pns : List ℕ) (n : ℕ) (E : Edges3)
      (p0 p1 : List ℕ) (br : ℤ) (r : BuildResult),
      KdTreeAccel.build_tree self node_num nb apb pns n E p0 p1 br = some r →
      ((r.leafReturn = true ↔
        ((bestCostGT r.best (4 * ((self.isect_cost : Float) * (n : Float)))
            = true ∧ n < 16) ∨ r.best = none ∨ r.bad_refines = 3)) ∧
       r.bad_refines =
         (if bestCostGT r.best ((self.isect_cost : Float) * (n : Float))
            = true then br + 1 else br)) := by
  intro self node_num nb apb pns n E p0 p1 br r h
  unfold KdTreeAccel.build_tree at h
  split at h
  · obtain ⟨h1, h2, h3⟩ := buildAfterEntry_fields h
    constructor
    · rw [h3]
      exact Iff.rfl
    · exact h2
  · exact absurd h (by simp)

/-- C6 witness: the amended statement instantiated at the empty-input
invocation of the counterexample. -/
theorem c6_leaf_decision_witness :
    (((⟨⟨80, 1, 1, 1 / 2, [], [], 0, 1, ⟨⟨0, 0, 0⟩, ⟨1, 1, 1⟩⟩⟩,
        ⟨[], [], []⟩, [], [], none, 1, true, 0, 0⟩ : BuildResult).leafReturn
        = true ↔
      ((bestCostGT (none : Option BestSplit)
          (4 * (((80 : ℤ) : Float) * ((0 : ℕ) : Float))) = true ∧ 0 < 16)
        ∨ (none : Option BestSplit) = none ∨ (1 : ℤ) = 3)) ∧
     (1 : ℤ) =
       (if bestCostGT (none : Option BestSplit)
            (((80 : ℤ) : Float) * ((0 : ℕ) : Float)) = true
        then 0 + 1 else 0)) :=
  c6_leaf_decision ⟨80, 1, 1, 1 / 2, [], [], 0, 0, ⟨⟨0, 0, 0⟩, ⟨1, 1, 1⟩⟩⟩ 0
    ⟨⟨0, 0, 0⟩, ⟨1, 1, 1⟩⟩ [] [] 0 ⟨[], [], []⟩ [] [] 0
    ⟨⟨80, 1, 1, 1 / 2, [], [], 0, 1, ⟨⟨0, 0, 0⟩, ⟨1, 1, 1⟩⟩⟩,
      ⟨[], [], []⟩, [], [], none, 1, true, 0, 0⟩ (by decide)

/-- C7 counterexample: a concrete run of the non-leaf continuation
(lines 273-288) on two disjoint unit boxes split at the first `End` edge:
it classifies the primitives (`prims0` receives primitive 0, `prims1`
receives primitive 1), but it writes no interior node and allocates no
child node indices: the receiver comes back entirely unchanged, with its
`nodes` array still empty. -/
theorem c7_counterexample :
    interiorStage
        ⟨80, 1, 1, 1 / 2, [⟨⟨0, 0, 0⟩, ⟨1, 1, 1⟩⟩, ⟨⟨2, 0, 0⟩, ⟨3, 1, 1⟩⟩],
          [], 0, 1, ⟨⟨0, 0, 0⟩, ⟨3, 1, 1⟩⟩⟩
        ⟨[⟨0, 0, EdgeType.Start⟩, ⟨1, 0, EdgeType.End⟩,
          ⟨2, 1, EdgeType.Start⟩, ⟨3, 1, EdgeType.End⟩], [], []⟩
        ⟨0, 0, 1⟩ 2 [0, 0] [0, 0] (some ⟨0, 0, 1⟩) 0 =
      some ⟨⟨80, 1, 1, 1 / 2, [⟨⟨0, 0, 0⟩, ⟨1, 1, 1⟩⟩, ⟨⟨2, 0, 0⟩, ⟨3, 1, 1⟩⟩],
          [], 0, 1, ⟨⟨0, 0, 0⟩, ⟨3, 1, 1⟩⟩⟩,
        ⟨[⟨0, 0, EdgeType.Start⟩, ⟨1, 0, EdgeType.End⟩,
          ⟨2, 1, EdgeType.Start⟩, ⟨3, 1, EdgeType.End⟩], [], []⟩,
        [0, 0], [1, 0], some ⟨0, 0, 1⟩, 0, false, 1, 1⟩ ∧
    (⟨80, 1, 1, 1 / 2, [⟨⟨0, 0, 0⟩, ⟨1, 1, 1⟩⟩, ⟨⟨2, 0, 0⟩, ⟨3, 1, 1⟩⟩],
        [], 0, 1, ⟨⟨0, 0, 0⟩, ⟨3, 1, 1⟩⟩⟩ : KdTreeAccel).nodes = [] := by
  exact ⟨by decide, by decide⟩

/-- C7 amended: when not forced to return early, `build_tree` classifies
primitives by the winning split exactly as the claim states — the `Start`
edges before the split edge go to the below buffer and the `End` edges
after it go to the above buffer, in order, straddlers appearing in both —
but it writes no interior node, allocates no child node indices and does
not recurse: every completed invocation leaves `nodes` untouched, advances
`next_free_node` by exactly one, and in fact takes the early leaf return
(the classification branch is dead code, since the sweep assertion rules
out every nonempty primitive count). -/
theorem c7_classification :
    (∀ (es : List BoundEdge) (off : ℕ) (p0 : List ℕ) (res : List ℕ × ℕ),
       classifyBelow es off p0 = some res →
       res.2 = ((es.take off).filter
         (fun e => decide (e.edge_type = EdgeType.Start))).length ∧
       res.1.take res.2 = ((es.take off).filter
         (fun e => decide (e.edge_type = EdgeType.Start))).map
           BoundEdge.prim_num ∧
       res.1.length = p0.length) ∧
    (∀ (es : List BoundEdge) (off n : ℕ) (p1 : List ℕ) (res : List ℕ × ℕ),
       classifyAbove es off n p1 = some res → off + 1 < 2 * n →
       res.2 = (((es.drop (off + 1)).take (2 * n - (off + 1))).filter
         (fun e => decide (e.edge_type = EdgeType.End))).length ∧
       res.1.take res.2 = (((es.drop (off + 1)).take (2 * n - (off + 1))).filter
         (fun e => decide (e.edge_type = EdgeType.End))).map
           BoundEdge.prim_num ∧
       res.1.length = p1.length) ∧
    (∀ (self : KdTreeAccel) (node_num : ℤ) (nb : Bounds3f)
       (apb : List Bounds3f) (pns : List ℕ) (n : ℕ) (E : Edges3)
       (p0 p1 : List ℕ) (br : ℤ) (r : BuildResult),
       KdTreeAccel.build_tree self node_num nb apb pns n E p0 p1 br = some r →
       r.self.nodes = self.nodes ∧
       r.self.next_free_node = self.next_free_node + 1 ∧
       r.leafReturn = true) := by
  refine ⟨?_, ?_, ?_⟩
  · intro es off p0 res h
    unfold classifyBelow at h
    split at h
    · obtain ⟨h1, h2⟩ := classifyLoop_eq_writeSeq EdgeType.Start _ _ _ _ h
      obtain ⟨hl, _, hd⟩ := writeSeq_spec _ _ _ _ h2
      refine ⟨by rw [h1]; omega, ?_, hl⟩
      rw [h1]
      simpa using hd
    · exact absurd h (by simp)
  · intro es off n p1 res h hlt
    unfold classifyAbove at h
    split at h
    · omega
    · split at h
      · obtain ⟨h1, h2⟩ := classifyLoop_eq_writeSeq EdgeType.End _ _ _ _ h
        obtain ⟨hl, _, hd⟩ := writeSeq_spec _ _ _ _ h2
        refine ⟨by rw [h1]; omega, ?_, hl⟩
        rw [h1]
        simpa using hd
      · exact absurd h (by simp)
  · intro self node_num nb apb pns n E p0 p1 br r h
    have hs := build_tree_self_eq h
    refine ⟨by rw [hs], by rw [hs], ?_⟩
    unfold KdTreeAccel.build_tree at h
    split at h
    · exact buildAfterEntry_leafReturn h
    · exact absurd h (by simp)

/-- C7 witness: the below-classification characterization instantiated at
the edge list of the counterexample with split offset 1. -/
theorem c7_classification_witness :
    ((([0, 0] : List ℕ), 1).2 =
      ((([(⟨0, 0, EdgeType.Start⟩ : BoundEdge), ⟨1, 0, EdgeType.End⟩,
          ⟨2, 1, EdgeType.Start⟩, ⟨3, 1, EdgeType.End⟩].take 1)).filter
        (fun e => decide (e.edge_type = EdgeType.Start))).length ∧
     (([0, 0] : List ℕ), 1).1.take (([0, 0] : List ℕ), 1).2 =
      ((([(⟨0, 0, EdgeType.Start⟩ : BoundEdge), ⟨1, 0, EdgeType.End⟩,
          ⟨2, 1, EdgeType.Start⟩, ⟨3, 1, EdgeType.End⟩].take 1)).filter
        (fun e => decide (e.edge_type = EdgeType.Start))).map
          BoundEdge.prim_num ∧
     (([0, 0] : List ℕ), 1).1.length = ([0, 0] : List ℕ).length) :=
  c7_classification.1
    [⟨0, 0, EdgeType.Start⟩, ⟨1, 0, EdgeType.End⟩,
     ⟨2, 1, EdgeType.Start⟩, ⟨3, 1, EdgeType.End⟩] 1 [0, 0] ([0, 0], 1)
    (by decide)

/-- C8: the edge sort orders edges ascending by position `t`, breaking ties
by the raw enum order with `Start` before `End`; the result is a
permutation of the input, and the sort (hence construction) is a pure
function of its input, so re-running it on the same input yields the same
output. -/
theorem c8_edge_sort :
    ∀ es : List BoundEdge,
      List.Sorted edgeLeRel (sortEdges es) ∧
      (sortEdges es).Perm es ∧
      (∀ e0 e1 : BoundEdge, edgeLeRel e0 e1 ↔
        (e0.t < e1.t ∨ (e0.t = e1.t ∧
          (e0.edge_type = EdgeType.Start ∨ e1.edge_type = EdgeType.End)))) ∧
      sortEdges es = sortEdges es := by
  intro es
  refine ⟨List.sorted_insertionSort edgeLeRel es,
    List.perm_insertionSort edgeLeRel es, ?_, rfl⟩
  intro e0 e1
  unfold edgeLeRel
  constructor
  · rintro (h | ⟨h1, h2⟩)
    · exact Or.inl h
    · refine Or.inr ⟨h1, ?_⟩
      cases h0 : e0.edge_type
      · exact Or.inl rfl
      · cases ht1 : e1.edge_type
        · rw [h0, ht1] at h2
          exact absurd h2 (by decide)
        · exact Or.inr rfl
  · rintro (h | ⟨h1, h2⟩)
    · exact Or.inl h
    · refine Or.inr ⟨h1, ?_⟩
      rcases h2 with h2 | h2
      · rw [h2]
        exact Nat.zero_le _
      · rw [h2]
        cases e0.edge_type
        · exact Nat.zero_le _
        · exact Nat.le_refl _

/-- C9: no `KdAccelNode` is ever constructed or stored: every completed
`build_tree` invocation leaves the `nodes` array exactly as it was and
advances `next_free_node` by exactly one, and every tree
`KdTreeAccel::new` returns has an empty `nodes` array. -/
theorem c9_no_nodes :
    (∀ (self : KdTreeAccel) (node_num : ℤ) (nb : Bounds3f)
       (apb : List Bounds3f) (pns : List ℕ) (n : ℕ) (E : Edges3)
       (p0 p1 : List ℕ) (br : ℤ) (r : BuildResult),
       KdTreeAccel.build_tree self node_num nb apb pns n E p0 p1 br = some r →
       r.self.nodes = self.nodes ∧
       r.self.next_free_node = self.next_free_node + 1) ∧
    (∀ (p : List Bounds3f) (ic tc : ℤ) (eb : Float) (mp md : ℤ)
       (t : KdTreeAccel),
       KdTreeAccel.newF p ic tc eb mp md = some t → t.nodes = []) := by
  constructor
  · intro self node_num nb apb pns n E p0 p1 br r h
    have hs := build_tree_self_eq h
    exact ⟨by rw [hs], by rw [hs]⟩
  · intro p ic tc eb mp md t h
    unfold KdTreeAccel.newF at h
    dsimp only at h
    obtain ⟨r, hr, ht⟩ := Option.map_eq_some'.mp h
    rw [← ht, build_tree_self_eq hr]

/-- C9 witness: the tree built from the empty primitive list has an empty
`nodes` array. -/
theorem c9_no_nodes_witness :
    (⟨80, 1, 1, 1 / 2, [], [], 0, 1, Bounds3f.default⟩ : KdTreeAccel).nodes =
      [] :=
  c9_no_nodes.2 [] 80 1 (1 / 2) 1 (-1)
    ⟨80, 1, 1, 1 / 2, [], [], 0, 1, Bounds3f.default⟩ (by decide)

/-- C10: the `Primitive` implementation of `KdTreeAccel` is a stub: for
every tree and every ray, `intersect` returns `None`, `intersect_p`
returns `false`, and `get_material` and `get_area_light` return `None`. -/
theorem c10_stub_queries :
    ∀ (t : KdTreeAccel) (r : Ray),
      t.intersect r = none ∧ t.intersect_p r = false ∧
      t.get_material = none ∧ t.get_area_light = none :=
  fun _ _ => ⟨rfl, rfl, rfl, rfl⟩

end RsPbrt
